import Mathlib

/-!
Verification of the spicy build tool (command-execution abstraction and
build-pipeline orchestrator) against its natural-language specification.

The definitions below are a shallow embedding of the Go source files
`run.go` and `cmd/spicy/main.go`. External effects (process execution,
the filesystem, the external toolchain collaborators) are modelled as
explicit parameters or oracles; machine integers are modelled as `Int`
with explicit wrapping where the Go arithmetic can overflow.
-/

/- ===== Command Runner: direct variant (ExecRunner.Run, run.go lines 36-50) ===== -/

/-- Outcome of one external process execution: `exitErr = none` models exit
code 0; `exitErr = some m` models a nonzero exit or spawn error whose text
is `m`. `stdout` and `stderr` are the captured output streams. -/
structure ProcResult where
  exitErr : Option String
  stdout : String
  stderr : String
deriving DecidableEq

/-- Embedding of `ExecRunner.Run`: on success return the captured standard
output; on failure build the error message from the command name, the
underlying error text and the captured standard error. The Go format string
wraps the command name in single quotes; the quote characters are elided
here and only the surrounding fixed text is kept. -/
def execRun (command : String) (p : ProcResult) : Except String String :=
  match p.exitErr with
  | none => .ok p.stdout
  | some m => .error ("Error running " ++ command ++ ": " ++ m ++ ": " ++ p.stderr)

/- ===== Command Runner: output-file variant (OutputFileRunner.Run, run.go lines 61-67) ===== -/

/-- Error values produced by the runner layer. `execError` is a failed
external execution; `openError` is the generic error returned by a failed
file open (the error `os.Open` yields). `missingOutput` is modelled from
the spec only: the spec claims a distinct `MissingOutputError`; the code
defines no such type, so no definition embedded from the source ever
produces this constructor. -/
inductive RunErr where
  | execError (cmd stderrText : String)
  | openError (path : String)
  | missingOutput (path : String)
deriving DecidableEq

/-- Embedding of `OutputFileRunner.Run`: run the inner runner, propagate
its error; on success return exactly the result of opening the expected
output file (`return os.Open(e.expectedOutputFile)`). `openFile` is the
filesystem oracle standing for `os.Open`. -/
def outputFileRun (inner : Except RunErr (List Nat))
    (openFile : String → Except RunErr (List Nat))
    (expectedOutputFile : String) : Except RunErr (List Nat) :=
  match inner with
  | .error e => .error e
  | .ok _ => openFile expectedOutputFile

/-- A filesystem in which every open fails with the generic open error. -/
def failOpen : String → Except RunErr (List Nat) :=
  fun p => .error (.openError p)

/- ===== ROM image and fill byte (main.go lines 95-98) ===== -/

/-- The ROM image, as a total map from byte offset to byte value. -/
def Rom : Type := Nat → Nat

/-- A blank ROM image: every offset holds the fill byte. -/
def blankRom (fill : Nat) : Rom := fun _ => fill

/-- Write `bytes` into the image at absolute offset `off`, overwriting the
covered range and leaving every other offset unchanged. -/
def romWriteAt (bytes : List Nat) (off : Nat) (rom : Rom) : Rom :=
  fun i => if off ≤ i ∧ i - off < bytes.length then bytes.getD (i - off) 0 else rom i

/-- Go conversion `byte(n)` applied to an `int`: the low 8 bits of the
two-complement value, i.e. `n mod 256`. -/
def goByteOfInt (n : Int) : Nat := (Int.emod n 256).toNat

/-- Modelled from the spec: the collaborator contract
`newBlankImage(fillByte) -> image` (the external `n64rom.NewBlankRomFile`);
given a byte it returns the blank image filled with that byte. -/
def newBlankRomFile (fill : Nat) : Except String Rom := .ok (blankRom fill)

/-- Embedding of the ROM initialization step of `mainE`
(`n64rom.NewBlankRomFile(byte(*filldata))` with its error wrap): the
configured `-f` value is first truncated to a byte by the Go conversion,
then passed to the image constructor. -/
def initRom (filldata : Int) : Except String Rom :=
  match newBlankRomFile (goByteOfInt filldata) with
  | .error e => .error ("n64rom.NewBlankRomFile: " ++ e)
  | .ok r => .ok r

/- ===== Temp File Stager (writeTempFile, run.go lines 79-97) ===== -/

/-- Which of the four fallible steps of `writeTempFile` succeed in a given
run: temp-file creation (`ioutil.TempFile`), path canonicalization
(`filepath.Abs`), the stream copy (`io.Copy`) and the final close. -/
structure TmpEnv where
  createOk : Bool
  absOk : Bool
  copyOk : Bool
  closeOk : Bool
deriving DecidableEq

/-- The filesystem state the stager touches: the set of currently open
file handles (by id) and the id the next created temp file receives. -/
structure TmpFS where
  handles : List Nat
  nextId : Nat
deriving DecidableEq

/-- The absolute path of the temp file with id `n`. -/
def tempPath (n : Nat) : String := "/tmp/spicy" ++ toString n

/-- Remove handle `h` from the set of open handles. -/
def closeHandle (h : Nat) (fs : TmpFS) : TmpFS :=
  { fs with handles := fs.handles.filter (fun x => x != h) }

/-- Embedding of `writeTempFile`: create the temp file (leaving it open),
canonicalize its path, copy the stream into it, close it, returning the
path; each step returns its own error on failure. Faithful to the source,
the early-error returns after creation do not close the file; only the
close step removes the handle. -/
def writeTempFile (env : TmpEnv) (fs : TmpFS) : Except String String × TmpFS :=
  if env.createOk = false then (.error "TempFile: create failed", fs)
  else
    let h := fs.nextId
    let fs1 : TmpFS := { handles := h :: fs.handles, nextId := fs.nextId + 1 }
    if env.absOk = false then (.error "Abs: failed", fs1)
    else if env.copyOk = false then (.error "Copy: failed", fs1)
    else if env.closeOk = false then (.error "Close: failed", closeHandle h fs1)
    else (.ok (tempPath h), closeHandle h fs1)

/- ===== Theorems for claim C4 ===== -/

/-- C4 counterexample: when the copy step fails, the stager does fail, but
the freshly created temp file handle is left open, contradicting the claim
that on every failure path no partial file is left open. -/
theorem writeTempFile_copy_failure_leaves_open :
    (writeTempFile ⟨true, true, false, true⟩ ⟨[], 0⟩).1 = .error "Copy: failed" ∧
    (writeTempFile ⟨true, true, false, true⟩ ⟨[], 0⟩).2.handles = [0] :=
  ⟨rfl, rfl⟩

/-- C4 amended: every create, path-resolution, copy, or close failure makes
the stager fail with the corresponding underlying I/O error, and on success
it returns the temp-file path; no file is open after a create failure or
after the close step runs, but on a path-resolution or copy failure the
temp file handle is left open. -/
theorem writeTempFile_amended (env : TmpEnv) (fs : TmpFS) :
    (env.createOk = false →
      writeTempFile env fs = (.error "TempFile: create failed", fs)) ∧
    (env.createOk = true → env.absOk = false →
      (writeTempFile env fs).1 = .error "Abs: failed" ∧
      (writeTempFile env fs).2.handles = fs.nextId :: fs.handles) ∧
    (env.createOk = true → env.absOk = true → env.copyOk = false →
      (writeTempFile env fs).1 = .error "Copy: failed" ∧
      (writeTempFile env fs).2.handles = fs.nextId :: fs.handles) ∧
    (env.createOk = true → env.absOk = true → env.copyOk = true →
      env.closeOk = false →
      (writeTempFile env fs).1 = .error "Close: failed" ∧
      (writeTempFile env fs).2.handles =
        (fs.nextId :: fs.handles).filter (fun x => x != fs.nextId)) ∧
    (env.createOk = true → env.absOk = true → env.copyOk = true →
      env.closeOk = true →
      (writeTempFile env fs).1 = .ok (tempPath fs.nextId) ∧
      (writeTempFile env fs).2.handles =
        (fs.nextId :: fs.handles).filter (fun x => x != fs.nextId)) := by
  refine ⟨?_, ?_, ?_, ?_, ?_⟩ <;>
    intros <;> simp_all [writeTempFile, closeHandle]

/-- C4 amended, witness: the create-failure case at a concrete environment
and filesystem state. -/
theorem writeTempFile_amended_witness :
    (⟨false, true, true, true⟩ : TmpEnv).createOk = false ∧
    writeTempFile ⟨false, true, true, true⟩ ⟨[], 5⟩ =
      (.error "TempFile: create failed", ⟨[], 5⟩) :=
  ⟨rfl, (writeTempFile_amended ⟨false, true, true, true⟩ ⟨[], 5⟩).1 rfl⟩

/- ===== Command Runner: substitution variant (MappedFileRunner.Run, run.go lines 99-121) ===== -/

/-- The observable state of one `MappedFileRunner.Run` invocation:
`nextTemp` is the id the next staged temp file receives, `stagedKeys`
records, in order, the mapping key of every temp file actually staged, and
`innerArgs` records the argument list the inner runner was invoked with
(`none` while the inner runner has not been invoked). -/
structure MFState where
  nextTemp : Nat
  stagedKeys : List String
  innerArgs : Option (List String)
deriving DecidableEq

/-- State after staging the stream of key `arg`: the next temp id is
consumed and the staging is logged. -/
def stageStep (arg : String) (st : MFState) : MFState :=
  { st with nextTemp := st.nextTemp + 1, stagedKeys := st.stagedKeys ++ [arg] }

/-- Embedding of the argument-rewriting loop of `MappedFileRunner.Run`:
walk the arguments in order; a token that is a key of the input-file
mapping (`keys`) is staged via the temp-file stager and replaced by the
staged absolute path, any other token is passed through unchanged.
`stageFail` is the oracle saying whether staging the stream of a given
token fails; on a staging failure the loop returns that error at once. -/
def rewriteArgs (keys : List String) (stageFail : String → Bool) :
    List String → MFState → Except String (List String) × MFState
  | [], st => (.ok [], st)
  | arg :: rest, st =>
    if arg ∈ keys then
      if stageFail arg = true then (.error ("stage failed: " ++ arg), st)
      else
        match rewriteArgs keys stageFail rest (stageStep arg st) with
        | (.ok newRest, st2) => (.ok (tempPath st.nextTemp :: newRest), st2)
        | (.error e, st2) => (.error e, st2)
    else
      match rewriteArgs keys stageFail rest st with
      | (.ok newRest, st2) => (.ok (arg :: newRest), st2)
      | (.error e, st2) => (.error e, st2)

/-- Embedding of `MappedFileRunner.Run`: rewrite the arguments (returning
any staging error without invoking the inner runner), invoke the inner
runner on the rewritten arguments (recorded in `innerArgs`), propagate its
error, then read the configured output file and return its bytes.
`innerResult` and `readOutput` are the oracles for the inner run and for
reading the output-file argument. -/
def mappedRun (keys : List String) (stageFail : String → Bool)
    (innerResult : Except String Unit) (readOutput : Except String (List Nat))
    (args : List String) (st : MFState) : Except String (List Nat) × MFState :=
  match rewriteArgs keys stageFail args st with
  | (.error e, st1) => (.error e, st1)
  | (.ok newArgs, st1) =>
    match innerResult with
    | .error e => (.error e, { st1 with innerArgs := some newArgs })
    | .ok _ =>
      match readOutput with
      | .error e => (.error e, { st1 with innerArgs := some newArgs })
      | .ok b => (.ok b, { st1 with innerArgs := some newArgs })

/-- Number of tokens of `l` that are keys of the mapping. -/
def countMatches (keys : List String) (l : List String) : Nat :=
  (l.filter (fun a => decide (a ∈ keys))).length

/-- The rewriting loop never touches the record of the inner invocation. -/
theorem rewriteArgs_innerArgs (keys : List String) (stageFail : String → Bool)
    (args : List String) : ∀ st : MFState,
    ((rewriteArgs keys stageFail args st).2).innerArgs = st.innerArgs := by
  induction args with
  | nil => intro st; rfl
  | cons arg rest ih =>
    intro st
    by_cases hk : arg ∈ keys
    · by_cases hf : stageFail arg = true
      · simp only [rewriteArgs, if_pos hk, if_pos hf]
      · simp only [rewriteArgs, if_pos hk, if_neg hf]
        have h2 := ih (stageStep arg st)
        rcases hrec : rewriteArgs keys stageFail rest (stageStep arg st) with ⟨res, st2⟩
        rw [hrec] at h2
        cases res <;> simpa [stageStep] using h2
    · simp only [rewriteArgs, if_neg hk]
      have h2 := ih st
      rcases hrec : rewriteArgs keys stageFail rest st with ⟨res, st2⟩
      rw [hrec] at h2
      cases res <;> simpa using h2

/-- On a successful rewrite, the output argument list is characterized
pointwise: same length; a token that is a mapping key is replaced by the
staged temp path whose id counts the matching tokens before it, starting
from the initial next id; any other token passes through unchanged at its
position. -/
theorem rewriteArgs_ok_spec (keys : List String) (stageFail : String → Bool)
    (args : List String) : ∀ (st stF : MFState) (newArgs : List String),
    rewriteArgs keys stageFail args st = (.ok newArgs, stF) →
    newArgs.length = args.length ∧
    ∀ i, i < args.length →
      newArgs.getD i "" =
        (if args.getD i "" ∈ keys then
          tempPath (st.nextTemp + countMatches keys (args.take i))
        else args.getD i "") := by
  induction args with
  | nil =>
    intro st stF newArgs h
    simp only [rewriteArgs] at h
    obtain ⟨h1, h2⟩ := Prod.mk.injEq .. ▸ h
    obtain rfl : ([] : List String) = newArgs := by simpa using h1.symm
    exact ⟨rfl, by intro i hi; simp at hi⟩
  | cons arg rest ih =>
    intro st stF newArgs h
    by_cases hk : arg ∈ keys
    · by_cases hf : stageFail arg = true
      · simp [rewriteArgs, if_pos hk, hf] at h
      · simp only [rewriteArgs, if_pos hk, if_neg hf] at h
        rcases hrec : rewriteArgs keys stageFail rest (stageStep arg st) with ⟨res, st2⟩
        rw [hrec] at h
        cases res with
        | error e => simp at h
        | ok newRest =>
          simp only [Prod.mk.injEq, Except.ok.injEq] at h
          obtain ⟨rfl, rfl⟩ := h
          obtain ⟨hlen, hchar⟩ := ih (stageStep arg st) st2 newRest hrec
          refine ⟨by simpa using hlen, ?_⟩
          intro i hi
          cases i with
          | zero =>
            simp [hk, countMatches]
          | succ j =>
            have hj : j < rest.length := by simpa using hi
            have hc := hchar j hj
            simp only [stageStep] at hc
            simp only [List.getD_cons_succ, List.take_succ_cons]
            rw [hc]
            by_cases hkj : rest.getD j "" ∈ keys
            · rw [if_pos hkj, if_pos hkj]
              have hcm : countMatches keys (arg :: rest.take j) =
                  countMatches keys (rest.take j) + 1 := by
                simp [countMatches, List.filter_cons, hk]
              rw [hcm]
              have harith : st.nextTemp + (countMatches keys (rest.take j) + 1) =
                  st.nextTemp + 1 + countMatches keys (rest.take j) := by omega
              rw [harith]
            · rw [if_neg hkj, if_neg hkj]
    · simp only [rewriteArgs, if_neg hk] at h
      rcases hrec : rewriteArgs keys stageFail rest st with ⟨res, st2⟩
      rw [hrec] at h
      cases res with
      | error e => simp at h
      | ok newRest =>
        simp only [Prod.mk.injEq, Except.ok.injEq] at h
        obtain ⟨rfl, rfl⟩ := h
        obtain ⟨hlen, hchar⟩ := ih st st2 newRest hrec
        refine ⟨by simpa using hlen, ?_⟩
        intro i hi
        cases i with
        | zero =>
          simp [hk]
        | succ j =>
          have hj : j < rest.length := by simpa using hi
          have hc := hchar j hj
          simp only [List.getD_cons_succ, List.take_succ_cons]
          rw [hc]
          have hcm : countMatches keys (arg :: rest.take j) =
              countMatches keys (rest.take j) := by
            simp [countMatches, List.filter_cons, hk]
          rw [hcm]

/-- On a successful rewrite, the log of staged keys is extended by exactly
the matching tokens of the argument list, in order. -/
theorem rewriteArgs_stagedKeys (keys : List String) (stageFail : String → Bool)
    (args : List String) : ∀ (st stF : MFState) (newArgs : List String),
    rewriteArgs keys stageFail args st = (.ok newArgs, stF) →
    stF.stagedKeys = st.stagedKeys ++ args.filter (fun a => decide (a ∈ keys)) := by
  induction args with
  | nil =>
    intro st stF newArgs h
    simp only [rewriteArgs] at h
    obtain ⟨h1, h2⟩ := Prod.mk.injEq .. ▸ h
    rw [← h2]
    simp
  | cons arg rest ih =>
    intro st stF newArgs h
    by_cases hk : arg ∈ keys
    · by_cases hf : stageFail arg = true
      · simp [rewriteArgs, if_pos hk, hf] at h
      · simp only [rewriteArgs, if_pos hk, if_neg hf] at h
        rcases hrec : rewriteArgs keys stageFail rest (stageStep arg st) with ⟨res, st2⟩
        rw [hrec] at h
        cases res with
        | error e => simp at h
        | ok newRest =>
          simp only [Prod.mk.injEq, Except.ok.injEq] at h
          obtain ⟨rfl, rfl⟩ := h
          have hlog := ih (stageStep arg st) st2 newRest hrec
          rw [hlog]
          simp [stageStep, List.filter_cons, hk]
    · simp only [rewriteArgs, if_neg hk] at h
      rcases hrec : rewriteArgs keys stageFail rest st with ⟨res, st2⟩
      rw [hrec] at h
      cases res with
      | error e => simp at h
      | ok newRest =>
        simp only [Prod.mk.injEq, Except.ok.injEq] at h
        obtain ⟨rfl, rfl⟩ := h
        have hlog := ih st st2 newRest hrec
        rw [hlog]
        simp [List.filter_cons, hk]

/-- Occurrences of a mapping key survive filtering by mapping membership. -/
theorem count_filter_of_mem (keys : List String) (key : String) (hk : key ∈ keys) :
    ∀ l : List String,
    (l.filter (fun a => decide (a ∈ keys))).count key = l.count key := by
  intro l
  induction l with
  | nil => rfl
  | cons a l ihl =>
    by_cases hm : a ∈ keys
    · simp [List.filter_cons, hm, List.count_cons, ihl]
    · have ha : a ≠ key := fun hEq => hm (hEq ▸ hk)
      simp [List.filter_cons, hm, List.count_cons, ihl, ha]

/- ===== Theorems for claims C1, C9, C10 ===== -/

/-- C1: in every run of the substitution runner that invokes the inner
runner, the argument list passed to it has the same length as the input
list; at each position, a token matching a mapping key is replaced by the
absolute path of the freshly staged temp file (ids counting up from the
initial state, so all staged paths are new and pairwise distinct), and a
non-matching token is passed through unchanged. -/
theorem mappedRun_rewrite_spec (keys : List String) (stageFail : String → Bool)
    (innerResult : Except String Unit) (readOutput : Except String (List Nat))
    (args : List String) (st : MFState) (newArgs : List String)
    (h0 : st.innerArgs = none)
    (hi : (mappedRun keys stageFail innerResult readOutput args st).2.innerArgs =
      some newArgs) :
    newArgs.length = args.length ∧
    ∀ i, i < args.length →
      newArgs.getD i "" =
        (if args.getD i "" ∈ keys then
          tempPath (st.nextTemp + countMatches keys (args.take i))
        else args.getD i "") := by
  unfold mappedRun at hi
  rcases hrec : rewriteArgs keys stageFail args st with ⟨res0, st1⟩
  rw [hrec] at hi
  cases res0 with
  | error e =>
    exfalso
    have hpres := rewriteArgs_innerArgs keys stageFail args st
    rw [hrec] at hpres
    dsimp only at hi hpres
    rw [hpres, h0] at hi
    exact Option.noConfusion hi
  | ok newArgs0 =>
    have : newArgs0 = newArgs := by
      cases innerResult with
      | error e => simpa using hi
      | ok u =>
        cases readOutput with
        | error e => simpa using hi
        | ok b => simpa using hi
    subst this
    exact rewriteArgs_ok_spec keys stageFail args st st1 newArgs0 hrec

/-- C1 witness: a concrete run with mapping key k among the arguments; the
middle token is replaced by the staged path and the outer tokens pass
through. -/
theorem mappedRun_rewrite_spec_witness :
    (MFState.mk 0 [] none).innerArgs = none ∧
    (mappedRun ["k"] (fun _ => false) (.ok ()) (.ok []) ["a", "k", "a"]
      ⟨0, [], none⟩).2.innerArgs = some ["a", tempPath 0, "a"] ∧
    ((["a", tempPath 0, "a"] : List String).length =
      (["a", "k", "a"] : List String).length) ∧
    ((["a", tempPath 0, "a"] : List String).getD 1 "" =
      (if (["a", "k", "a"] : List String).getD 1 "" ∈ (["k"] : List String) then
        tempPath ((MFState.mk 0 [] none).nextTemp +
          countMatches ["k"] ((["a", "k", "a"] : List String).take 1))
      else (["a", "k", "a"] : List String).getD 1 "")) := by
  refine ⟨rfl, rfl, ?_, ?_⟩
  · exact (mappedRun_rewrite_spec ["k"] (fun _ => false) (.ok ()) (.ok [])
      ["a", "k", "a"] ⟨0, [], none⟩ ["a", tempPath 0, "a"] rfl rfl).1
  · exact (mappedRun_rewrite_spec ["k"] (fun _ => false) (.ok ()) (.ok [])
      ["a", "k", "a"] ⟨0, [], none⟩ ["a", tempPath 0, "a"] rfl rfl).2 1 (by decide)

/-- C9 counterexample: one successful run in which the single mapped key
occurs twice in the argument list stages two temp files for that stream,
contradicting exactly-one materialization per run. -/
theorem mappedRun_duplicate_key_stages_twice :
    (mappedRun ["k"] (fun _ => false) (.ok ()) (.ok []) ["k", "k"]
      ⟨0, [], none⟩).1 = .ok [] ∧
    (mappedRun ["k"] (fun _ => false) (.ok ()) (.ok []) ["k", "k"]
      ⟨0, [], none⟩).2.stagedKeys.count "k" = 2 :=
  ⟨rfl, rfl⟩

/-- C9 amended: in one run whose staging loop completes, each mapped
stream is materialized once per occurrence of its key in the argument
list — the staging count of a mapping key equals the number of times it
occurs among the arguments (zero when it does not occur, more than one
when it is duplicated). -/
theorem rewriteArgs_staging_count (keys : List String) (stageFail : String → Bool)
    (args : List String) (st stF : MFState) (newArgs : List String) (key : String)
    (h : rewriteArgs keys stageFail args st = (.ok newArgs, stF))
    (h0 : st.stagedKeys = [])
    (hk : key ∈ keys) :
    stF.stagedKeys.count key = args.count key := by
  have hlog := rewriteArgs_stagedKeys keys stageFail args st stF newArgs h
  rw [hlog, h0, List.nil_append]
  exact count_filter_of_mem keys key hk args

/-- C9 amended, witness: a run in which key k occurs once among three
arguments stages exactly one file for it. -/
theorem rewriteArgs_staging_count_witness :
    (MFState.mk 0 [] none).stagedKeys = [] ∧
    "k" ∈ (["k"] : List String) ∧
    (MFState.mk 1 ["k"] none).stagedKeys.count "k" =
      (["a", "k", "a"] : List String).count "k" := by
  refine ⟨rfl, by decide, ?_⟩
  exact rewriteArgs_staging_count ["k"] (fun _ => false) ["a", "k", "a"]
    ⟨0, [], none⟩ ⟨1, ["k"], none⟩ ["a", tempPath 0, "a"] "k" rfl rfl (by decide)

/-- C10: when staging any mapped token fails, the substitution runner
returns that staging failure and the inner runner is never invoked
(`innerArgs` stays `none`), so the external command is not executed. -/
theorem mappedRun_staging_failure_no_exec (keys : List String)
    (stageFail : String → Bool) (innerResult : Except String Unit)
    (readOutput : Except String (List Nat)) (args : List String) (st : MFState)
    (e : String) (stF : MFState)
    (h : rewriteArgs keys stageFail args st = (.error e, stF))
    (h0 : st.innerArgs = none) :
    mappedRun keys stageFail innerResult readOutput args st = (.error e, stF) ∧
    stF.innerArgs = none := by
  constructor
  · unfold mappedRun
    rw [h]
  · have hpres := rewriteArgs_innerArgs keys stageFail args st
    rw [h] at hpres
    dsimp only at hpres
    rw [hpres, h0]

/-- C10 witness: a concrete run whose only mapped token fails to stage; the
run returns the staging error and the inner runner is not invoked. -/
theorem mappedRun_staging_failure_no_exec_witness :
    rewriteArgs ["k"] (fun _ => true) ["k"] ⟨0, [], none⟩ =
      (.error ("stage failed: " ++ "k"), ⟨0, [], none⟩) ∧
    mappedRun ["k"] (fun _ => true) (.ok ()) (.ok [7]) ["k"] ⟨0, [], none⟩ =
      (.error ("stage failed: " ++ "k"), ⟨0, [], none⟩) ∧
    (MFState.mk 0 [] none).innerArgs = none := by
  refine ⟨rfl, ?_, ?_⟩
  · exact (mappedRun_staging_failure_no_exec ["k"] (fun _ => true) (.ok ()) (.ok [7])
      ["k"] ⟨0, [], none⟩ ("stage failed: " ++ "k") ⟨0, [], none⟩ rfl rfl).1
  · exact (mappedRun_staging_failure_no_exec ["k"] (fun _ => true) (.ok ()) (.ok [7])
      ["k"] ⟨0, [], none⟩ ("stage failed: " ++ "k") ⟨0, [], none⟩ rfl rfl).2


/- ===== Theorems for claims C3, C7, C8 ===== -/

/-- C7: for every direct-run invocation that fails (nonzero exit or spawn
error), the returned failure message carries the program name and ends with
the full captured standard-error text verbatim; the failure is independent
of the captured standard output (stdout is discarded); and on exit code 0
no error is returned. -/
theorem execRun_failure_message (command m out out2 serr : String) :
    (execRun command ⟨some m, out, serr⟩ =
      .error ("Error running " ++ command ++ ": " ++ m ++ ": " ++ serr)) ∧
    (∃ pre, ("Error running " ++ command ++ ": " ++ m ++ ": " ++ serr : String) =
      pre ++ serr) ∧
    (∃ pre post, ("Error running " ++ command ++ ": " ++ m ++ ": " ++ serr : String) =
      (pre ++ command) ++ post) ∧
    (execRun command ⟨some m, out, serr⟩ = execRun command ⟨some m, out2, serr⟩) ∧
    (execRun command ⟨none, out, serr⟩ = .ok out) := by
  refine ⟨rfl, ⟨"Error running " ++ command ++ ": " ++ m ++ ": ", rfl⟩,
    ⟨"Error running ", ": " ++ m ++ ": " ++ serr, ?_⟩, rfl, rfl⟩
  simp [String.append_assoc]

/-- C3 counterexample: an instance in which the inner run succeeds and the
expected output file cannot be opened; the call fails with the generic
file-open error, which is a different value from the missing-output error
the claim requires. -/
theorem outputFileRun_open_failure_is_generic :
    outputFileRun (.ok []) failOpen "out.bin" = .error (.openError "out.bin") ∧
    (Except.error (RunErr.openError "out.bin") : Except RunErr (List Nat)) ≠
      .error (.missingOutput "out.bin") := by
  exact ⟨rfl, by simp⟩

/-- C3 amended: when the inner run succeeds, the output-file variant
returns exactly the result of opening the expected output file, so an open
failure surfaces as the generic file-open error; the code never translates
it into a distinct missing-output error. -/
theorem outputFileRun_amended (inner : Except RunErr (List Nat)) (v : List Nat)
    (openFile : String → Except RunErr (List Nat)) (path : String)
    (hok : inner = .ok v) :
    outputFileRun inner openFile path = openFile path := by
  subst hok; rfl

/-- C3 amended, witness: concrete instantiation at a successful inner run
and the always-failing filesystem. -/
theorem outputFileRun_amended_witness :
    (Except.ok [1, 2] : Except RunErr (List Nat)) = .ok [1, 2] ∧
    outputFileRun (.ok [1, 2]) failOpen "rom.bin" = failOpen "rom.bin" :=
  ⟨rfl, outputFileRun_amended (.ok [1, 2]) [1, 2] failOpen "rom.bin" rfl⟩

/-- C8 counterexample: the out-of-range fill value 256 does not make
initialization fail; it proceeds with the truncated byte 0. -/
theorem initRom_256_truncates :
    initRom 256 = .ok (blankRom 0) ∧ goByteOfInt 256 = 0 ∧
    (initRom 256).isOk = true :=
  ⟨rfl, rfl, rfl⟩

/-- C8 amended: for every configured `-f` value, ROM-image initialization
succeeds with the value truncated to its low 8 bits (always a valid byte);
no fill value can make it fail as out of range. -/
theorem initRom_amended (z : Int) :
    initRom z = .ok (blankRom (goByteOfInt z)) ∧ goByteOfInt z < 256 := by
  refine ⟨rfl, ?_⟩
  have h1 : 0 ≤ Int.emod z 256 := Int.emod_nonneg z (by decide)
  have h2 : Int.emod z 256 < 256 := Int.emod_lt_of_pos z (by decide)
  unfold goByteOfInt
  omega

/- ===== Pipeline Orchestrator (mainE, main.go lines 99-148) ===== -/

/-- A raw segment of a build unit: the include file paths it lists. -/
structure RawSegment where
  includes : List String
deriving DecidableEq

/-- A build unit ("wave"): its raw segments. -/
structure Wave where
  rawSegments : List RawSegment
deriving DecidableEq

/-- The fixed code-start offset within the ROM image (the external
constant `n64rom.CodeStart`; its exact value is irrelevant to the claims,
only that every unit is written at this same offset). -/
def codeStart : Nat := 4096

/-- Oracles for the external collaborators the orchestrator drives.
`E` is the type of entry-binary tokens, `O` of object-stream tokens.
`openInclude` stands for `os.Open` on an include path; `wrapRawObject`
for `spicy.CreateRawObjectWrapper` (whose result the source discards);
`readAll` for `ioutil.ReadAll` of the binarized stream; `writeAtErr`
gives the error value `rom.WriteAt` reports (also discarded by the
source, which tests a stale nil error instead). -/
structure Collab (E O : Type) where
  openInclude : String → Except String Unit
  wrapRawObject : String → Except String Unit
  createEntryBinary : Wave → Except String E
  linkSpec : Wave → E → Except String O
  binarizeObject : O → Except String O
  readAll : O → Except String (List Nat)
  writeAtErr : List Nat → Nat → Option String

/-- Embedding of the include loop of `mainE` for one raw segment: open
each include (propagating an open failure with its stage message) and
invoke the raw-object wrapper. Faithful to the source, the result of the
wrapper call is discarded without inspection. -/
def processIncludes (c : Collab E O) : List String → Except String Unit
  | [] => .ok ()
  | inc :: rest =>
    match c.openInclude inc with
    | .error e => .error ("could not open include: " ++ e)
    | .ok _ =>
      let _wrapResult := c.wrapRawObject inc
      processIncludes c rest

/-- Embedding of the raw-segment loop of `mainE` for one wave. -/
def processSegments (c : Collab E O) : List RawSegment → Except String Unit
  | [] => .ok ()
  | seg :: rest =>
    match processIncludes c seg.includes with
    | .error e => .error e
    | .ok _ => processSegments c rest

/-- Embedding of the wave loop of `mainE`: for each wave in spec order,
process its raw segments, build the entry binary, link, binarize, read the
binarized bytes, and write them into the ROM image at the fixed code-start
offset. Faithful to the source, the error value `rom.WriteAt` reports is
bound but never tested (the source checks a stale nil error after the
write), so the loop continues regardless of it. -/
def processWaves (c : Collab E O) (rom : Rom) : List Wave → Except String Rom
  | [] => .ok rom
  | w :: ws =>
    match processSegments c w.rawSegments with
    | .error e => .error e
    | .ok _ =>
      match c.createEntryBinary w with
      | .error e => .error ("spicy.CreateEntryBinary: " ++ e)
      | .ok entry =>
        match c.linkSpec w entry with
        | .error e => .error ("spicy.LinkSpec: " ++ e)
        | .ok linked =>
          match c.binarizeObject linked with
          | .error e => .error ("spicy.BinarizeObject: " ++ e)
          | .ok bin =>
            match c.readAll bin with
            | .error e => .error ("could not read binarized object: " ++ e)
            | .ok bytes =>
              let _writeErr := c.writeAtErr bytes codeStart
              processWaves c (romWriteAt bytes codeStart rom) ws

/-- A collaborator in which every stage succeeds and wave `w` binarizes to
the byte list `binOf w`. -/
def okCollab (binOf : Wave → List Nat) : Collab Unit Wave where
  openInclude := fun _ => .ok ()
  wrapRawObject := fun _ => .ok ()
  createEntryBinary := fun _ => .ok ()
  linkSpec := fun w _ => .ok w
  binarizeObject := fun o => .ok o
  readAll := fun o => .ok (binOf o)
  writeAtErr := fun _ _ => none

/-- A collaborator in which the raw-object wrapper and the ROM write both
fail while every checked stage succeeds. -/
def suppressCollab : Collab Unit Unit where
  openInclude := fun _ => .ok ()
  wrapRawObject := fun _ => .error "ld: wrap failed"
  createEntryBinary := fun _ => .ok ()
  linkSpec := fun _ _ => .ok ()
  binarizeObject := fun o => .ok o
  readAll := fun _ => .ok [7]
  writeAtErr := fun _ _ => some "short write"

/-- A spec with one wave holding one raw segment with one include file. -/
def oneIncludeWaves : List Wave := [⟨[⟨["foo.bin"]⟩]⟩]

/- ===== Theorems for claims C2, C5 ===== -/

/-- C2, code bug: there is a run in which the raw-object-wrapping step for
an include file fails and the write into the ROM image reports an error,
yet the wave loop completes successfully: the source discards the wrapper
result and tests a stale nil error after `rom.WriteAt`, so neither failure
is returned up the call chain. -/
theorem processWaves_suppresses_wrap_and_write_errors :
    suppressCollab.wrapRawObject "foo.bin" = .error "ld: wrap failed" ∧
    suppressCollab.writeAtErr [7] codeStart = some "short write" ∧
    (processWaves suppressCollab (blankRom 0) oneIncludeWaves).isOk = true :=
  ⟨rfl, rfl, rfl⟩

/-- With the all-success collaborator every include and segment loop
succeeds. -/
theorem processIncludes_okCollab (binOf : Wave → List Nat) (l : List String) :
    processIncludes (okCollab binOf) l = .ok () := by
  induction l with
  | nil => rfl
  | cons inc rest ih => simpa [processIncludes, okCollab] using ih

theorem processSegments_okCollab (binOf : Wave → List Nat) (l : List RawSegment) :
    processSegments (okCollab binOf) l = .ok () := by
  induction l with
  | nil => rfl
  | cons seg rest ih =>
    simp [processSegments, processIncludes_okCollab, ih]

/-- With the all-success collaborator the wave loop writes each wave, in
spec order, at the fixed code-start offset. -/
theorem processWaves_okCollab (binOf : Wave → List Nat) (ws : List Wave) :
    ∀ rom : Rom,
    processWaves (okCollab binOf) rom ws =
      .ok (ws.foldl (fun r w => romWriteAt (binOf w) codeStart r) rom) := by
  induction ws with
  | nil => intro rom; rfl
  | cons w ws ih =>
    intro rom
    simp only [processWaves]
    rw [processSegments_okCollab]
    exact ih (romWriteAt (binOf w) codeStart rom)

/-- Reading back inside the freshly written range returns the written
bytes. -/
theorem romWriteAt_read (bytes : List Nat) (off : Nat) (rom : Rom) (i : Nat)
    (hi : i < bytes.length) :
    romWriteAt bytes off rom (off + i) = bytes.getD i 0 := by
  unfold romWriteAt
  have h1 : off ≤ off + i := Nat.le_add_right off i
  have h2 : off + i - off = i := by omega
  rw [if_pos ⟨h1, by omega⟩, h2]

/-- C5: for every spec with two or more build units and an all-success
toolchain, the wave loop writes every unit at the same fixed code-start
offset in spec order, and the final image at that offset carries exactly
the last unit's binarized bytes wherever that output covers it. -/
theorem processWaves_last_wave_wins (binOf : Wave → List Nat) (rom0 : Rom)
    (ws : List Wave) (hlen : 2 ≤ ws.length) :
    processWaves (okCollab binOf) rom0 ws =
      .ok (ws.foldl (fun r w => romWriteAt (binOf w) codeStart r) rom0) ∧
    ∀ i, i < (binOf (ws.getLastD ⟨[]⟩)).length →
      (ws.foldl (fun r w => romWriteAt (binOf w) codeStart r) rom0) (codeStart + i) =
        (binOf (ws.getLastD ⟨[]⟩)).getD i 0 := by
  refine ⟨processWaves_okCollab binOf ws rom0, ?_⟩
  rcases List.eq_nil_or_concat ws with rfl | ⟨l, b, rfl⟩
  · simp at hlen
  · intro i hi
    rw [List.concat_eq_append] at hi ⊢
    rw [List.foldl_concat]
    have hlast : (l ++ [b]).getLastD ⟨[]⟩ = b := by
      simp [List.getLastD_concat]
    rw [hlast] at hi ⊢
    exact romWriteAt_read (binOf b) codeStart _ i hi

/-- Two concrete waves and a binarization assigning them different
outputs: the one-segment wave binarizes to two bytes, the empty wave to
one byte. -/
def waveA : Wave := ⟨[⟨[]⟩]⟩

def waveB : Wave := ⟨[]⟩

def binOf2 (w : Wave) : List Nat := if w.rawSegments.length = 0 then [2] else [1, 1]

/-- C5 witness: with two waves both writing at the code-start offset, the
final image holds the second wave's byte there. -/
theorem processWaves_last_wave_wins_witness :
    2 ≤ ([waveA, waveB] : List Wave).length ∧
    0 < (binOf2 (([waveA, waveB] : List Wave).getLastD ⟨[]⟩)).length ∧
    (([waveA, waveB] : List Wave).foldl
        (fun r w => romWriteAt (binOf2 w) codeStart r) (blankRom 0)) (codeStart + 0) =
      (binOf2 (([waveA, waveB] : List Wave).getLastD ⟨[]⟩)).getD 0 0 := by
  refine ⟨by decide, by decide, ?_⟩
  exact (processWaves_last_wave_wins binOf2 (blankRom 0) [waveA, waveB]
    (by decide)).2 0 (by decide)

/- ===== Finalization: output file creation and padding (main.go lines 131-147) ===== -/

/-- Wrap an integer to the range of a 64-bit machine integer, as Go
arithmetic on `int` does on overflow. -/
def wrap64 (n : Int) : Int := Int.emod (n + 2 ^ 63) (2 ^ 64) - 2 ^ 63

/-- Go division of a 64-bit integer by 8: truncation toward zero. -/
def goDiv8 (a : Int) : Int :=
  if 0 ≤ a then ((a.toNat / 8 : Nat) : Int) else -(((-a).toNat / 8 : Nat) : Int)

/-- The minimum byte size `int64(1000000 * romsizeMbits / 8)` computed by
`mainE`, with the multiplication wrapping in 64-bit arithmetic as in Go. -/
def goMinSize (s : Int) : Int := goDiv8 (wrap64 (1000000 * s))

/-- Write `bytes` into a file (a byte list) at offset `off`, extending the
file with zero bytes as needed, as `os.File.WriteAt` does past the end. -/
def fileWriteAt (file bytes : List Nat) (off : Nat) : List Nat :=
  (List.range (max file.length (off + bytes.length))).map
    (fun i => if off ≤ i ∧ i - off < bytes.length then bytes.getD (i - off) 0
      else file.getD i 0)

/-- Embedding of the padding step of `mainE`: if the configured ROM size
in megabits is positive, write one zero byte at the computed minimum byte
size (a negative computed offset makes the write fail, as `WriteAt` does);
otherwise leave the file untouched. -/
def padFile (romsizeMbits : Int) (file : List Nat) : Except String (List Nat) :=
  if 0 < romsizeMbits then
    if goMinSize romsizeMbits < 0 then .error "writeat: negative offset"
    else .ok (fileWriteAt file [0] (goMinSize romsizeMbits).toNat)
  else .ok file

/-- Embedding of the finalize stage of `mainE`: create the (empty) output
file, pad it if a positive ROM size was configured, then serialize the ROM
image bytes into it from offset zero (`rom.Save`, modelled from the spec
as writing the image contents, given here as the abstract byte list
`romBytes`). -/
def finalize (romsizeMbits : Int) (romBytes : List Nat) : Except String (List Nat) :=
  match padFile romsizeMbits [] with
  | .error e => .error e
  | .ok f => .ok (fileWriteAt f romBytes 0)

/-- Length of a file after a write: the old length or the end of the
written range, whichever is larger. -/
theorem fileWriteAt_length (file bytes : List Nat) (off : Nat) :
    (fileWriteAt file bytes off).length = max file.length (off + bytes.length) := by
  simp [fileWriteAt]

/- ===== Theorems for claim C6 ===== -/

/-- C6 counterexample: for the configurable positive ROM size 2 to the 50
megabits, the Go 64-bit computation of the minimum byte size wraps and
differs from the exact value 125000 times the size, so the minimum size is
not computed in exact integer arithmetic for every positive size. -/
theorem goMinSize_overflows :
    (0 : Int) < 2 ^ 50 ∧ goMinSize (2 ^ 50) ≠ 125000 * 2 ^ 50 := by
  constructor
  · decide
  · decide

/-- C6 amended: for every positive configured size s whose byte count does
not overflow 64-bit arithmetic (1000000 times s below 2 to the 63), the
minimum byte size is computed exactly as 125000 times s, finalization
writes a single zero byte at that offset before serializing the image, and
the finalized file is at least that size plus one byte long; for
non-positive s (including the default -1) no padding write occurs. -/
theorem finalize_padding (s : Int) (romBytes : List Nat) :
    (0 < s → 1000000 * s < 2 ^ 63 →
      goMinSize s = 125000 * s ∧
      finalize s romBytes =
        .ok (fileWriteAt (fileWriteAt [] [0] (125000 * s).toNat) romBytes 0) ∧
      (125000 * s).toNat + 1 ≤
        (fileWriteAt (fileWriteAt [] [0] (125000 * s).toNat) romBytes 0).length) ∧
    (s ≤ 0 → finalize s romBytes = .ok (fileWriteAt [] romBytes 0)) := by
  constructor
  · intro hs hsmall
    have hmin : goMinSize s = 125000 * s := by
      unfold goMinSize wrap64 goDiv8
      have hnn : 0 ≤ 1000000 * s := by positivity
      have hlt : 1000000 * s + 2 ^ 63 < 2 ^ 64 := by omega
      have hmod : Int.emod (1000000 * s + 2 ^ 63) (2 ^ 64) = 1000000 * s + 2 ^ 63 :=
        Int.emod_eq_of_lt (by omega) (by omega)
      rw [hmod]
      have hx : 1000000 * s + 2 ^ 63 - 2 ^ 63 = 1000000 * s := by omega
      rw [hx, if_pos hnn]
      omega
    refine ⟨hmin, ?_, ?_⟩
    · unfold finalize padFile
      rw [if_pos hs, if_neg (by omega), hmin]
    · rw [fileWriteAt_length, fileWriteAt_length]
      simp only [List.length_nil, Nat.zero_add, List.length_cons,
        Nat.max_zero, Nat.zero_max]
      omega
  · intro hs
    unfold finalize padFile
    rw [if_neg (by omega)]

/-- C6 witness: at the documented size of 8 megabits the minimum byte size
is exactly 1000000 and the finalized file is at least 1000001 bytes long;
at the default size -1 no padding write occurs. -/
theorem finalize_padding_witness :
    (0 : Int) < 8 ∧ 1000000 * (8 : Int) < 2 ^ 63 ∧
    goMinSize 8 = 125000 * 8 ∧
    finalize 8 [] = .ok (fileWriteAt (fileWriteAt [] [0] ((125000 : Int) * 8).toNat) [] 0) ∧
    ((125000 : Int) * 8).toNat + 1 ≤
      (fileWriteAt (fileWriteAt [] [0] ((125000 : Int) * 8).toNat) [] 0).length ∧
    ((-1 : Int) ≤ 0 ∧ finalize (-1) [] = .ok (fileWriteAt [] [] 0)) := by
  refine ⟨by decide, by decide, ?_, ?_, ?_, by decide, ?_⟩
  · exact ((finalize_padding 8 []).1 (by decide) (by decide)).1
  · exact ((finalize_padding 8 []).1 (by decide) (by decide)).2.1
  · exact ((finalize_padding 8 []).1 (by decide) (by decide)).2.2
  · exact (finalize_padding (-1) []).2 (by decide)

